import Mathlib

/-!
Verification of the extraction-and-classification pipeline of
cpm-knowledge-extractor (src/discover.js, src/extract.js, src/classify.js).

Strings are modelled as `List Char` (free text and paths) or `String`
(closed label enumerations such as categories and types); byte strings as
`List Nat` with values < 256.  Every definition is a direct transcription
of the corresponding JavaScript function; the few JavaScript regular
expressions involved are literal-alternation or anchored patterns and are
transcribed as explicit substring / parsing functions.
-/

/-! ## Basic character and string utilities (JavaScript string semantics) -/

/-- Lowercasing as performed by JavaScript `toLowerCase` on the ASCII and
Latin-1 ranges (the only ranges used by the rule tables, which are English
and Danish). -/
def toLowerCh (c : Char) : Char :=
  if 'A' ≤ c ∧ c ≤ 'Z' then Char.ofNat (c.toNat + 32)
  else if 0xC0 ≤ c.toNat ∧ c.toNat ≤ 0xDE ∧ c.toNat ≠ 0xD7 then Char.ofNat (c.toNat + 32)
  else c

def lowerStr (s : List Char) : List Char := s.map toLowerCh

/-- Whitespace as matched by JavaScript `\s` / `trim` on the ASCII range. -/
def isWsCh (c : Char) : Bool :=
  c == ' ' || c == '\t' || c == '\n' || c == '\r' || c.toNat == 11 || c.toNat == 12

/-- JavaScript `String.prototype.trim`. -/
def trimChars (s : List Char) : List Char :=
  ((s.dropWhile isWsCh).reverse.dropWhile isWsCh).reverse

/-- JavaScript `content.split('\n')`. -/
def splitLines : List Char → List (List Char)
  | [] => [[]]
  | c :: rest =>
    match splitLines rest with
    | [] => [[c]]
    | l :: ls => if c = '\n' then [] :: l :: ls else (c :: l) :: ls

/-- JavaScript `lines.join('\n')`. -/
def joinLines : List (List Char) → List Char
  | [] => []
  | [l] => l
  | l :: l2 :: ls => l ++ '\n' :: joinLines (l2 :: ls)

/-- Does `pat` occur at the very start of `s`? -/
def isPre : List Char → List Char → Bool
  | [], _ => true
  | _ :: _, [] => false
  | p :: ps, c :: cs => p == c && isPre ps cs

/-- JavaScript `s.includes(pat)`: substring occurrence anywhere. -/
def containsSub (pat : List Char) : List Char → Bool
  | [] => isPre pat []
  | c :: cs => isPre pat (c :: cs) || containsSub pat cs

/-- Number of matches of the literal pattern `pat` found by a JavaScript
global regex scan (leftmost, non-overlapping).  The scan consumes at least
one character per step, so the fuel `l.length` in `countOcc` is never
exhausted; the fuel only makes the recursion structural. -/
def countOccFuel (pat : List Char) : Nat → List Char → Nat
  | 0, _ => 0
  | _, [] => 0
  | fuel + 1, c :: cs =>
    if isPre pat (c :: cs) then 1 + countOccFuel pat fuel (List.drop (pat.length - 1) cs)
    else countOccFuel pat fuel cs

def countOcc (pat : List Char) (l : List Char) : Nat := countOccFuel pat l.length l

/-- Suffix of `s` immediately after the first occurrence of `pat`, if any. -/
def afterSub (pat : List Char) : List Char → Option (List Char)
  | [] => if isPre pat [] then some [] else none
  | c :: cs => if isPre pat (c :: cs) then some ((c :: cs).drop pat.length) else afterSub pat cs

/-- Longest strict portion of `s` before the first occurrence of `pat`
(`none` when `pat` does not occur). -/
def beforeSub (pat : List Char) : List Char → Option (List Char)
  | [] => if isPre pat [] then some [] else none
  | c :: cs =>
    if isPre pat (c :: cs) then some []
    else (beforeSub pat cs).map (c :: ·)

def isDigitCh (c : Char) : Bool := '0' ≤ c && c ≤ '9'

/-- Decimal rendering of a natural number, as JavaScript string
interpolation of a number produces it. -/
def digitCh (d : Nat) : Char := Char.ofNat (48 + d % 10)

def decReprFuel : Nat → Nat → List Char
  | 0, _ => []
  | fuel + 1, n => if n < 10 then [digitCh n] else decReprFuel fuel (n / 10) ++ [digitCh (n % 10)]

/-- `decRepr n` peels one digit per step, so fuel `n + 1` is never
exhausted (`n / 10 < n`); the fuel only makes the recursion structural. -/
def decRepr (n : Nat) : List Char := decReprFuel (n + 1) n

/-- Value of a decimal digit string (proof-side inverse of `decRepr`). -/
def decValC (s : List Char) : Nat := s.foldl (fun a c => 10 * a + (c.toNat - 48)) 0

/-! ## UTF-8 encoding (what node's `hash.update(string)` hashes) -/

def utf8Char (c : Char) : List Nat :=
  let n := c.toNat
  if n < 0x80 then [n]
  else if n < 0x800 then [0xC0 + n / 64, 0x80 + n % 64]
  else if n < 0x10000 then [0xE0 + n / 4096, 0x80 + (n / 64) % 64, 0x80 + n % 64]
  else [0xF0 + n / 262144, 0x80 + (n / 4096) % 64, 0x80 + (n / 64) % 64, 0x80 + n % 64]

def utf8Str : List Char → List Nat
  | [] => []
  | c :: cs => utf8Char c ++ utf8Str cs

/-! ## SHA-256 (FIPS 180-4), over byte lists, as used by `createHash('sha256')` -/

def M32 : Nat := 4294967296

def rotr (n x : Nat) : Nat := (x >>> n) ||| ((x <<< (32 - n)) % M32)

def bsig0 (x : Nat) : Nat := (rotr 2 x) ^^^ (rotr 13 x) ^^^ (rotr 22 x)
def bsig1 (x : Nat) : Nat := (rotr 6 x) ^^^ (rotr 11 x) ^^^ (rotr 25 x)
def ssig0 (x : Nat) : Nat := (rotr 7 x) ^^^ (rotr 18 x) ^^^ (x >>> 3)
def ssig1 (x : Nat) : Nat := (rotr 17 x) ^^^ (rotr 19 x) ^^^ (x >>> 10)
def chf (x y z : Nat) : Nat := (x &&& y) ^^^ ((x ^^^ 0xFFFFFFFF) &&& z)
def majf (x y z : Nat) : Nat := (x &&& y) ^^^ (x &&& z) ^^^ (y &&& z)

def K256 : List Nat :=
  [1116352408, 1899447441, 3049323471, 3921009573, 961987163,
   1508970993, 2453635748, 2870763221, 3624381080, 310598401,
   607225278, 1426881987, 1925078388, 2162078206, 2614888103,
   3248222580, 3835390401, 4022224774, 264347078, 604807628,
   770255983, 1249150122, 1555081692, 1996064986, 2554220882,
   2821834349, 2952996808, 3210313671, 3336571891, 3584528711,
   113926993, 338241895, 666307205, 773529912, 1294757372,
   1396182291, 1695183700, 1986661051, 2177026350, 2456956037,
   2730485921, 2820302411, 3259730800, 3345764771, 3516065817,
   3600352804, 4094571909, 275423344, 430227734, 506948616,
   659060556, 883997877, 958139571, 1322822218, 1537002063,
   1747873779, 1955562222, 2024104815, 2227730452, 2361852424,
   2428436474, 2756734187, 3204031479, 3329325298]

structure S8 where
  a : Nat
  b : Nat
  c : Nat
  d : Nat
  e : Nat
  f : Nat
  g : Nat
  h : Nat
deriving DecidableEq, Repr

def initH : S8 :=
  ⟨1779033703, 3144134277, 1013904242, 2773480762,
   1359893119, 2600822924, 528734635, 1541459225⟩

def lenBytes64 (n : Nat) : List Nat :=
  [(n >>> 56) % 256, (n >>> 48) % 256, (n >>> 40) % 256, (n >>> 32) % 256,
   (n >>> 24) % 256, (n >>> 16) % 256, (n >>> 8) % 256, n % 256]

def padMsg (msg : List Nat) : List Nat :=
  msg ++ 0x80 :: (List.replicate ((119 - msg.length % 64) % 64) 0 ++ lenBytes64 (8 * msg.length))

def toWords : List Nat → List Nat
  | b0 :: b1 :: b2 :: b3 :: rest => (b0 * 16777216 + b1 * 65536 + b2 * 256 + b3) :: toWords rest
  | _ => []

def extendW (w : List Nat) : List Nat :=
  (List.range 48).foldl
    (fun w _ =>
      let n := w.length
      w ++ [(ssig1 (w.getD (n - 2) 0) + w.getD (n - 7) 0 + ssig0 (w.getD (n - 15) 0)
             + w.getD (n - 16) 0) % M32])
    w

def roundStep (s : S8) (kw : Nat × Nat) : S8 :=
  let t1 := (s.h + bsig1 s.e + chf s.e s.f s.g + kw.1 + kw.2) % M32
  let t2 := (bsig0 s.a + majf s.a s.b s.c) % M32
  ⟨(t1 + t2) % M32, s.a, s.b, s.c, (s.d + t1) % M32, s.e, s.f, s.g⟩

def compress (s : S8) (block : List Nat) : S8 :=
  let w := extendW (toWords block)
  let r := (K256.zip w).foldl roundStep s
  ⟨(s.a + r.a) % M32, (s.b + r.b) % M32, (s.c + r.c) % M32, (s.d + r.d) % M32,
   (s.e + r.e) % M32, (s.f + r.f) % M32, (s.g + r.g) % M32, (s.h + r.h) % M32⟩

/-- Split into 64-byte blocks.  Each step consumes at least one byte, so
fuel `l.length` is never exhausted; it only makes the recursion structural. -/
def chunkFuel : Nat → List Nat → List (List Nat)
  | 0, _ => []
  | _, [] => []
  | fuel + 1, l => l.take 64 :: chunkFuel fuel (l.drop 64)

def chunk64 (l : List Nat) : List (List Nat) := chunkFuel l.length l

def wordBytes (w : Nat) : List Nat :=
  [(w >>> 24) % 256, (w >>> 16) % 256, (w >>> 8) % 256, w % 256]

def sha256 (msg : List Nat) : List Nat :=
  let hf := (chunk64 (padMsg msg)).foldl compress initH
  wordBytes hf.a ++ wordBytes hf.b ++ wordBytes hf.c ++ wordBytes hf.d ++
  wordBytes hf.e ++ wordBytes hf.f ++ wordBytes hf.g ++ wordBytes hf.h

/-! ## Lowercase hexadecimal rendering (node's `digest('hex')`) -/

def hexDigit (n : Nat) : Char := Char.ofNat (if n < 10 then 48 + n else 87 + n)

def hexByte (b : Nat) : List Char := [hexDigit ((b / 16) % 16), hexDigit (b % 16)]

def hexOfBytes : List Nat → List Char
  | [] => []
  | b :: bs => hexByte b ++ hexOfBytes bs

def isLowerHex (c : Char) : Bool := ('0' ≤ c && c ≤ '9') || ('a' ≤ c && c ≤ 'f')

/-! ## Data model -/

/-- A file found by discovery (src/discover.js): absolute path, path
relative to the repository root, priority tier and source category. -/
structure DiscoveredFile where
  path : List Char
  relativePath : List Char
  priority : Nat
  category : String
deriving DecidableEq, Repr

/-- A raw knowledge block (src/extract.js).  The JavaScript field
`section` is named `sectionTitle` here because `section` is a Lean
keyword. -/
structure RawBlock where
  content : List Char
  file : List Char
  category : String
  priority : Nat
  lineStart : Nat
  lineEnd : Nat
  sectionTitle : List Char
deriving DecidableEq, Repr

structure RepoInfo where
  owner : List Char
  name : List Char
  url : List Char
deriving DecidableEq, Repr

/-- A detected stack item (src/detect-stack.js output, pass-through here). -/
structure StackItem where
  name : List Char
  version : Option (List Char)
  category : String
deriving DecidableEq, Repr

structure SourceRef where
  repo : List Char
  file : List Char
  line : Nat
  url : List Char
deriving DecidableEq, Repr

/-- A Knowledge Fragment (src/classify.js output).  The JavaScript field
`example` is named `exampleSnippet` because `example` is a Lean keyword. -/
structure Fragment where
  id : List Char
  stack : List (List Char)
  category : String
  type : String
  title : List Char
  description : List Char
  fullContent : List Char
  exampleSnippet : Option (List Char)
  source : SourceRef
  confidence : String
  tags : List (List Char)
deriving DecidableEq, Repr

/-! ## File Discoverer (src/discover.js) -/

namespace Discover

structure KnownFile where
  pattern : List Char
  priority : Nat
  category : String

/-- The KNOWLEDGE_FILES table, in source order. -/
def KNOWLEDGE_FILES : List KnownFile :=
  [⟨"CLAUDE.md".toList, 1, "ai-instructions"⟩,
   ⟨".cursorrules".toList, 1, "ai-instructions"⟩,
   ⟨".cursor/rules".toList, 1, "ai-instructions"⟩,
   ⟨".clinerules".toList, 1, "ai-instructions"⟩,
   ⟨"AGENTS.md".toList, 1, "ai-instructions"⟩,
   ⟨"copilot-instructions.md".toList, 1, "ai-instructions"⟩,
   ⟨".github/copilot-instructions.md".toList, 1, "ai-instructions"⟩,
   ⟨"CONVENTIONS.md".toList, 2, "conventions"⟩,
   ⟨"CODING_STANDARDS.md".toList, 2, "conventions"⟩,
   ⟨"STYLE_GUIDE.md".toList, 2, "conventions"⟩,
   ⟨"ARCHITECTURE.md".toList, 2, "architecture"⟩,
   ⟨"DESIGN.md".toList, 2, "architecture"⟩,
   ⟨"CONTRIBUTING.md".toList, 3, "contributing"⟩,
   ⟨"README.md".toList, 3, "readme"⟩,
   ⟨"SECURITY.md".toList, 3, "security"⟩,
   ⟨".eslintrc.json".toList, 4, "linting"⟩,
   ⟨".eslintrc.js".toList, 4, "linting"⟩,
   ⟨".eslintrc.cjs".toList, 4, "linting"⟩,
   ⟨"eslint.config.js".toList, 4, "linting"⟩,
   ⟨"eslint.config.mjs".toList, 4, "linting"⟩,
   ⟨"tsconfig.json".toList, 4, "typescript"⟩,
   ⟨".prettierrc".toList, 4, "formatting"⟩,
   ⟨".prettierrc.json".toList, 4, "formatting"⟩,
   ⟨"biome.json".toList, 4, "linting"⟩]

/-- One entry of the docs/ directory tree: a subdirectory with its own
entries, or a regular file. -/
inductive DocsEntry where
  | dir : List Char → List DocsEntry → DocsEntry
  | file : List Char → DocsEntry

/-- The file-system facts discovery depends on: which root-relative paths
exist as regular files, the entry list of the docs/ directory when it
exists as a directory, and the MAX_DOCS_DEPTH setting (default 3). -/
structure RepoFS where
  isFile : List Char → Bool
  docs : Option (List DocsEntry)
  maxDocsDepth : Nat

/-- Does the file name match `/\.(md|mdx|txt)$/i`? -/
def endsWithStr (suf s : List Char) : Bool := isPre suf.reverse s.reverse

def isTextFile (name : List Char) : Bool :=
  let n := lowerStr name
  endsWithStr ".md".toList n || endsWithStr ".mdx".toList n || endsWithStr ".txt".toList n

/-- Recursive scan of the docs/ tree (scanDocsDir): depth-bounded,
skipping directories whose name starts with a dot, collecting text and
markdown files at priority 3 / category documentation.  `dirPath` is the
directory path relative to the repository root (initially "docs"). -/
def scanEntries (maxDepth : Nat) (repoRoot : List Char) :
    Nat → List Char → List DocsEntry → List DiscoveredFile
  | _, _, [] => []
  | depth, dirPath, DocsEntry.file name :: rest =>
    (if isTextFile name then
      [⟨repoRoot ++ '/' :: (dirPath ++ '/' :: name), dirPath ++ '/' :: name, 3, "documentation"⟩]
     else []) ++ scanEntries maxDepth repoRoot depth dirPath rest
  | depth, dirPath, DocsEntry.dir name sub :: rest =>
    (if name.headD ' ' == '.' || maxDepth < depth + 1 then []
     else scanEntries maxDepth repoRoot (depth + 1) (dirPath ++ '/' :: name) sub) ++
    scanEntries maxDepth repoRoot depth dirPath rest

/-- The known-file table hits, in table order. -/
def knownHits (repoRoot : List Char) (fs : RepoFS) : List DiscoveredFile :=
  KNOWLEDGE_FILES.filterMap fun e =>
    if fs.isFile e.pattern then
      some ⟨repoRoot ++ '/' :: e.pattern, e.pattern, e.priority, e.category⟩
    else none

/-- The docs/ scan hits, in discovery order. -/
def docsHits (repoRoot : List Char) (fs : RepoFS) : List DiscoveredFile :=
  match fs.docs with
  | none => []
  | some entries => scanEntries fs.maxDocsDepth repoRoot 0 ("docs".toList) entries

/-- Insertion placing `x` after every element of equal or smaller
priority: the stable ascending sort that `found.sort((a, b) =>
a.priority - b.priority)` performs (Array.prototype.sort is stable). -/
def insertByPriority (x : DiscoveredFile) : List DiscoveredFile → List DiscoveredFile
  | [] => [x]
  | y :: ys => if y.priority ≤ x.priority then y :: insertByPriority x ys else x :: y :: ys

def sortByPriority (l : List DiscoveredFile) : List DiscoveredFile :=
  l.foldl (fun acc x => insertByPriority x acc) []

/-- discoverFiles: known-file hits, then docs/ scan, sorted stably by
ascending priority tier. -/
def discoverFiles (repoRoot : List Char) (fs : RepoFS) : List DiscoveredFile :=
  sortByPriority (knownHits repoRoot fs ++ docsHits repoRoot fs)

end Discover

/-! ## Block Extractor and Signal Filter (src/extract.js) -/

namespace Extract

/-- Does the section title match the anchored change-log pattern
`/^(seneste\s+)?session|^tidligere\s+session|^changelog|^version\s+histor|^v\d+\.\d+/i`?
Every alternative is start-anchored; `\s+` is one or more whitespace
characters. -/
def afterWordWs (word : List Char) (next : List Char) (s : List Char) : Bool :=
  isPre word s &&
    (let r := s.drop word.length
     match r with
     | [] => false
     | c :: _ => isWsCh c && isPre next (r.dropWhile isWsCh))

def versionTag (s : List Char) : Bool :=
  match s with
  | 'v' :: rest =>
    let ds := rest.takeWhile isDigitCh
    !ds.isEmpty &&
      (match rest.drop ds.length with
       | '.' :: d :: _ => isDigitCh d
       | _ => false)
  | _ => false

def sessionLogTitle (sec : List Char) : Bool :=
  let s := lowerStr sec
  isPre "session".toList s ||
  afterWordWs "seneste".toList "session".toList s ||
  afterWordWs "tidligere".toList "session".toList s ||
  isPre "changelog".toList s ||
  afterWordWs "version".toList "histor".toList s ||
  versionTag s

/-- `/\*\*.*\*\*/` restricted to one line: two occurrences of `**`. -/
def hasBoldPair (line : List Char) : Bool :=
  match afterSub ("**".toList) line with
  | some rest => containsSub ("**".toList) rest
  | none => false

/-- One line's contribution to `/^\s*[-*]\s/m`: leading whitespace, a
dash or star, then a whitespace character — which may be the newline
ending the line, hence the `isLast` flag. -/
def bulletLine (isLast : Bool) (line : List Char) : Bool :=
  match line.dropWhile isWsCh with
  | [] => false
  | c :: rest =>
    (c == '-' || c == '*') &&
      (match rest with
       | [] => !isLast
       | d :: _ => isWsCh d)

def anyBullet : List (List Char) → Bool
  | [] => false
  | [l] => bulletLine true l
  | l :: l2 :: ls => bulletLine false l || anyBullet (l2 :: ls)

/-- The class `[❌✅⚠️]` (cross, check mark, warning
sign, variation selector-16). -/
def hasEmoji (content : List Char) : Bool :=
  content.any fun c =>
    c.toNat == 0x274C || c.toNat == 0x2705 || c.toNat == 0x26A0 || c.toNat == 0xFE0F

def anyWord (ws : List String) (s : List Char) : Bool :=
  ws.any fun w => containsSub w.toList s

/-- The positive-signal disjunction of hasKnowledgeSignal, in source
order. -/
def posSignals (content : List Char) : Bool :=
  let lower := lowerStr content
  anyWord ["must", "should", "always", "never", "don\x27t", "avoid", "prefer", "require"] lower ||
  anyWord ["skal", "altid", "aldrig", "undgå", "brug ikke", "foretrækker", "påkrævet",
           "obligatorisk"] lower ||
  anyWord ["pattern", "convention", "rule", "standard", "best practice"] lower ||
  anyWord ["mønster", "konvention", "regel", "vigtigt"] lower ||
  anyWord ["import", "export", "async", "await", "function", "class", "const", "let"] lower ||
  anyWord ["error", "test", "lint", "format", "style", "security", "auth"] lower ||
  containsSub "```".toList content ||
  (splitLines content).any hasBoldPair ||
  (containsSub "- [ ]".toList content || containsSub "- [x]".toList content) ||
  anyBullet (splitLines content) ||
  hasEmoji content

/-- `content.split('\n').filter(l => l.trim().length > 0).length`. -/
def nonBlankCount (content : List Char) : Nat :=
  ((splitLines content).filter (fun l => !(trimChars l).isEmpty)).length

/-- hasKnowledgeSignal (src/extract.js): the Signal Filter. -/
def hasKnowledgeSignal (content : List Char) (sec : List Char) : Bool :=
  if content.length < 50 then false
  else if sec == "preamble".toList && nonBlankCount content < 3 then false
  else if containsSub "mit license".toList (lowerStr content) ||
      containsSub "apache license".toList (lowerStr content) then false
  else if isPre "copyright".toList (lowerStr content) then false
  else if !sec.isEmpty && sessionLogTitle sec then false
  else posSignals content

/-- The heading regex `/^(#{1,3})\s+(.+)/`: its second capture group,
when the line is a level 1–3 heading.  When everything after the hashes
is whitespace, backtracking leaves the last whitespace character to
`(.+)` (so a heading line needs at least two characters after the
hashes). -/
def parseHeading (line : List Char) : Option (List Char) :=
  let m := (line.takeWhile (· == '#')).length
  let rest := line.dropWhile (· == '#')
  if 1 ≤ m ∧ m ≤ 3 then
    match rest with
    | [] => none
    | c :: _ =>
      if isWsCh c then
        let t := rest.dropWhile isWsCh
        if !t.isEmpty then some t
        else if 2 ≤ rest.length then some [rest.getLastD ' ']
        else none
      else none
  else none

/-- The loop body of splitBySections: `i` is the 0-based index of the
next line, `sec`/`cur`/`start` are currentSection, currentLines and
sectionStart, `acc` the blocks array. -/
def splitGo (file : DiscoveredFile) :
    List (List Char) → Nat → List Char → List (List Char) → Nat → List RawBlock → List RawBlock
  | [], i, sec, cur, start, acc =>
    let lastContent := trimChars (joinLines cur)
    if !lastContent.isEmpty && hasKnowledgeSignal lastContent sec then
      acc ++ [⟨lastContent, file.relativePath, file.category, file.priority, start, i, sec⟩]
    else acc
  | line :: rest, i, sec, cur, start, acc =>
    match parseHeading line with
    | some h =>
      if !cur.isEmpty then
        let sectionContent := trimChars (joinLines cur)
        let acc' :=
          if !sectionContent.isEmpty && hasKnowledgeSignal sectionContent sec then
            acc ++ [⟨sectionContent, file.relativePath, file.category, file.priority, start, i, sec⟩]
          else acc
        splitGo file rest (i + 1) (trimChars h) [line] (i + 1) acc'
      else
        splitGo file rest (i + 1) sec (cur ++ [line]) start acc
    | none => splitGo file rest (i + 1) sec (cur ++ [line]) start acc

/-- splitBySections (src/extract.js). -/
def splitBySections (content : List Char) (file : DiscoveredFile) : List RawBlock :=
  splitGo file (splitLines content) 0 ("preamble".toList) [] 1 []

def isConfigCat (c : String) : Bool :=
  c == "linting" || c == "typescript" || c == "formatting"

/-- The warning logged when a file read fails. -/
def warnMsg (f : DiscoveredFile) (e : List Char) : List Char :=
  "[WARN] Could not read ".toList ++ f.relativePath ++ ": ".toList ++ e

/-- extractKnowledge (src/extract.js), with the `readFile` outcome of
each file supplied as an `Except` value: config-category files become one
whole-file block, other files are split by sections, files whose read
fails are skipped with a warning.  Returns (blocks, warnings). -/
def extractKnowledge :
    List (DiscoveredFile × Except (List Char) (List Char)) → List RawBlock × List (List Char)
  | [] => ([], [])
  | (f, Except.error e) :: rest =>
    let r := extractKnowledge rest
    (r.1, warnMsg f e :: r.2)
  | (f, Except.ok content) :: rest =>
    let r := extractKnowledge rest
    ((if isConfigCat f.category then
        [⟨content, f.relativePath, f.category, f.priority, 1, (splitLines content).length,
          f.relativePath⟩]
      else splitBySections content f) ++ r.1, r.2)

end Extract

/-! ## Fragment Classifier, variant A (classify.js as imported by src/index.js) -/

namespace Classify

def CATEGORY_KEYWORDS : List (String × List String) :=
  [("error-handling", ["error", "catch", "throw", "exception", "try", "failure", "retry",
                       "fallback"]),
   ("auth-pattern", ["auth", "authentication", "authorization", "login", "session", "jwt",
                     "token", "middleware", "clerk", "supabase auth"]),
   ("testing", ["test", "spec", "assert", "expect", "mock", "stub", "fixture", "vitest", "jest",
                "playwright", "coverage"]),
   ("file-structure", ["directory", "folder", "structure", "layout", "organize", "colocation",
                       "barrel", "index"]),
   ("naming", ["naming", "convention", "camelcase", "kebab", "pascal", "prefix", "suffix",
               "nomenclature"]),
   ("security", ["security", "xss", "csrf", "injection", "sanitize", "escape", "cors", "csp",
                 "owasp", "vulnerability"]),
   ("performance", ["performance", "cache", "lazy", "optimize", "bundle", "chunk", "prefetch",
                    "preload", "memo"]),
   ("conventions", ["convention", "standard", "rule", "guideline", "style", "format", "lint",
                    "prettier"]),
   ("architecture", ["architecture", "pattern", "design", "layer", "module", "separation",
                     "concern", "dependency"]),
   ("api-design", ["api", "endpoint", "route", "handler", "request", "response", "rest",
                   "graphql", "trpc"]),
   ("database", ["database", "migration", "schema", "query", "index", "relation", "foreign key",
                 "drizzle", "prisma"]),
   ("deployment", ["deploy", "ci", "cd", "docker", "kubernetes", "vercel", "fly",
                   "github actions", "pipeline"]),
   ("imports", ["import", "export", "module", "require", "barrel", "path alias",
                "absolute import"])]

def antiPatternSignals : List String :=
  ["never", "don\x27t", "avoid", "do not", "bad", "wrong", "anti-pattern", "deprecated",
   "instead of"]

def ruleSignals : List String :=
  ["must", "always", "required", "shall", "enforce", "mandatory"]

def patternSignals : List String :=
  ["pattern", "approach", "technique", "strategy", "example", "how to", "implementation"]

def conventionSignals : List String :=
  ["convention", "standard", "style", "format", "naming", "prefer", "recommendation"]

def TYPE_SIGNALS : List (String × List String) :=
  [("anti-pattern", antiPatternSignals), ("rule", ruleSignals), ("pattern", patternSignals),
   ("convention", conventionSignals)]

/-- Sum of keyword occurrence counts (`keywords.reduce` over global regex
matches). -/
def scoreCat (lower : List Char) (keywords : List String) : Nat :=
  keywords.foldl (fun sum kw => sum + countOcc kw.toList lower) 0

/-- detectCategory (variant A): best keyword score over the table, strict
improvement only, default `conventions`. -/
def detectCategory (content : List Char) : String :=
  let lower := lowerStr content
  (CATEGORY_KEYWORDS.foldl
    (fun best e => if best.2 < scoreCat lower e.2 then (e.1, scoreCat lower e.2) else best)
    ("conventions", 0)).1

def anySig (signals : List String) (lower : List Char) : Bool :=
  signals.any fun s => containsSub s.toList lower

/-- detectType (variant A): first table entry with any signal substring
in the lowercased content; default `convention`. -/
def detectType (content : List Char) : String :=
  let lower := lowerStr content
  match TYPE_SIGNALS.find? (fun e => anySig e.2 lower) with
  | some e => e.1
  | none => "convention"

def techTerms : List String :=
  ["app-router", "pages-router", "server-component", "client-component", "middleware",
   "api-route", "server-action", "ssr", "ssg", "isr", "monorepo", "workspace", "turbo", "pnpm",
   "migration", "schema", "seed", "dark-mode", "responsive", "a11y", "accessibility"]

/-- JavaScript `term.replace('-', ' ')`: first hyphen only. -/
def replaceFirstHyphen : List Char → List Char
  | [] => []
  | c :: cs => if c = '-' then ' ' :: cs else c :: replaceFirstHyphen cs

/-- extractTags (variant A): a Set in insertion order — stack names, then
matching tech terms. -/
def extractTags (content : List Char) (stack : List StackItem) : List (List Char) :=
  let init := stack.foldl (fun acc s => if acc.contains s.name then acc else acc ++ [s.name]) []
  let lower := lowerStr content
  techTerms.foldl
    (fun acc term =>
      let t := term.toList
      if (containsSub (replaceFirstHyphen t) lower || containsSub t lower) && !acc.contains t
      then acc ++ [t] else acc)
    init

def calculateConfidence (block : RawBlock) : String :=
  if block.category == "ai-instructions" then "high"
  else if block.category == "conventions" || block.category == "architecture" then "high"
  else if block.priority ≤ 3 then "medium"
  else "low"

/-- `section.replace(/^#+\s*/, '')`. -/
def stripLeadHashWs (s : List Char) : List Char :=
  if s.headD ' ' == '#' then (s.dropWhile (· == '#')).dropWhile isWsCh else s

/-- `firstLine.replace(/^[#*\-\s]+/, '')`. -/
def isTitlePunct (c : Char) : Bool := c == '#' || c == '*' || c == '-' || isWsCh c

def generateTitle (block : RawBlock) : List Char :=
  if !block.sectionTitle.isEmpty && block.sectionTitle != "preamble".toList then
    (stripLeadHashWs block.sectionTitle).take 100
  else
    match (splitLines block.content).find? (fun l => !(trimChars l).isEmpty) with
    | some firstLine => (firstLine.dropWhile isTitlePunct).take 100
    | none => block.file ++ " â€” ".toList ++ block.category.toList

def isWordCh (c : Char) : Bool :=
  ('a' ≤ c && c ≤ 'z') || ('A' ≤ c && c ≤ 'Z') || ('0' ≤ c && c ≤ '9') || c == '_'

def codeFence : List Char := "```".toList

/-- The scan performed by `content.match(/```[\w]*\n([\s\S]*?)```)/`:
at each start position, an opening fence, an optional language word, a
newline, then the lazily captured body up to the first closing fence. -/
def exGo : List Char → Option (List Char)
  | [] => none
  | c :: cs =>
    if isPre codeFence (c :: cs) then
      match ((c :: cs).drop 3).dropWhile isWordCh with
      | '\n' :: body =>
        match beforeSub codeFence body with
        | some captured => some (trimChars captured)
        | none => exGo cs
      | _ => exGo cs
    else exGo cs

/-- extractCodeExample: first fenced code block, trimmed; `none` if there
is none. -/
def extractCodeExample (content : List Char) : Option (List Char) := exGo content

/-- The string hashed for a fragment id:
`${repoInfo.url}:${block.file}:${block.lineStart}`. -/
def idInput (url file : List Char) (lineStart : Nat) : List Char :=
  url ++ ':' :: (file ++ ':' :: decRepr lineStart)

/-- The id computation of classifyFragments: SHA-256 of the id input,
hex digest, first 12 characters. -/
def fragmentId (info : RepoInfo) (file : List Char) (lineStart : Nat) : List Char :=
  (hexOfBytes (sha256 (utf8Str (idInput info.url file lineStart)))).take 12

def stackString (s : StackItem) : List Char :=
  match s.version with
  | some v => if v.isEmpty then s.name else s.name ++ '@' :: v
  | none => s.name

def mkFragment (stack : List StackItem) (info : RepoInfo) (block : RawBlock) : Fragment :=
  { id := fragmentId info block.file block.lineStart
    stack := stack.map stackString
    category := detectCategory block.content
    type := detectType block.content
    title := generateTitle block
    description := block.content.take 500
    fullContent := block.content
    exampleSnippet := extractCodeExample block.content
    source :=
      { repo := info.owner ++ '/' :: info.name
        file := block.file
        line := block.lineStart
        url := if !info.url.isEmpty then
            info.url ++ "/blob/main/".toList ++ block.file ++ "#L".toList ++ decRepr block.lineStart
          else [] }
    confidence := calculateConfidence block
    tags := extractTags block.content stack }

/-- classifyFragments (variant A): one fragment per raw block, in order. -/
def classifyFragments (rawBlocks : List RawBlock) (stack : List StackItem) (info : RepoInfo) :
    List Fragment :=
  rawBlocks.map (mkFragment stack info)

end Classify

/-! ## Fragment Classifier, variant B (the second classify.js variant in
the repository, with title-category overrides) -/

namespace ClassifyB

def TITLE_CATEGORY_OVERRIDES : List (String × List String) :=
  [("conventions", ["regler", "rules", "conventions", "standards", "vigtigt", "important",
                    "hård", "hard"]),
   ("ui-patterns", ["ui pattern", "component", "knap", "button", "søge", "search"]),
   ("git-workflow", ["git", "commit", "workflow"]),
   ("deployment", ["deploy", "hosting", "env", "sync"]),
   ("testing", ["test", "e2e", "spec"]),
   ("auth-pattern", ["auth", "login", "role", "rbac", "rolle"])]

def CATEGORY_KEYWORDS : List (String × List String) :=
  [("error-handling", ["error", "catch", "throw", "exception", "try", "failure", "retry",
                       "fallback", "fejlhåndtering"]),
   ("auth-pattern", ["auth", "authentication", "authorization", "login", "session", "jwt",
                     "token", "middleware", "clerk", "supabase auth", "biometric", "face id"]),
   ("testing", ["test", "spec", "assert", "expect", "mock", "stub", "fixture", "vitest", "jest",
                "playwright", "coverage", "e2e"]),
   ("file-structure", ["directory", "folder", "structure", "layout", "organize", "colocation",
                       "barrel", "index", "monorepo"]),
   ("naming", ["naming", "convention", "camelcase", "kebab", "pascal", "prefix", "suffix",
               "nomenclature"]),
   ("security", ["security", "xss", "csrf", "injection", "sanitize", "escape", "cors", "csp",
                 "owasp", "vulnerability", "rls", "row-level"]),
   ("performance", ["performance", "cache", "lazy", "optimize", "bundle", "chunk", "prefetch",
                    "preload", "memo"]),
   ("conventions", ["convention", "standard", "rule", "guideline", "style", "format", "lint",
                    "prettier", "regler", "vigtigt", "workflow", "aldrig", "altid"]),
   ("architecture", ["architecture", "pattern", "design", "layer", "module", "separation",
                     "concern", "dependency", "arkitektur"]),
   ("api-design", ["api", "endpoint", "route", "handler", "request", "response", "rest",
                   "graphql", "trpc"]),
   ("database", ["database", "migration", "schema", "query", "index", "relation", "foreign key",
                 "drizzle", "prisma", "supabase"]),
   ("deployment", ["deploy", "ci", "cd", "docker", "kubernetes", "vercel", "fly",
                   "github actions", "pipeline", "hosting", "pm2"]),
   ("imports", ["import", "export", "module", "require", "barrel", "path alias",
                "absolute import"]),
   ("ui-patterns", ["component", "button", "input", "form", "modal", "dialog", "toast", "badge",
                    "ui pattern", "søgefelt", "clear"]),
   ("git-workflow", ["git", "commit", "branch", "merge", "pull", "push", "rebase", "workflow"])]

/-- Does the title match any of a category's override regexes (all are
case-insensitive literal patterns)? -/
def titleMatches (patterns : List String) (title : List Char) : Bool :=
  patterns.any fun p => containsSub p.toList (lowerStr title)

/-- The override patterns of one category of the table. -/
def overridesFor (cat : String) : List String :=
  match TITLE_CATEGORY_OVERRIDES.find? (fun e => e.1 == cat) with
  | some e => e.2
  | none => []

/-- The first category of the override table whose patterns match the
title (`none` when the title is empty — falsy in the source — or no
pattern matches). -/
def firstOverride (title : List Char) : Option String :=
  if title.isEmpty then none
  else (TITLE_CATEGORY_OVERRIDES.find? (fun e => titleMatches e.2 title)).map (·.1)

/-- detectCategory (variant B): title override first, then keyword
scoring with default `conventions`. -/
def detectCategory (content : List Char) (sectionTitle : List Char) : String :=
  match firstOverride sectionTitle with
  | some cat => cat
  | none =>
    let lower := lowerStr content
    (CATEGORY_KEYWORDS.foldl
      (fun best e =>
        if best.2 < Classify.scoreCat lower e.2 then (e.1, Classify.scoreCat lower e.2) else best)
      ("conventions", 0)).1

end ClassifyB

/-! ## Spec-side identifier formula and concrete inputs used by witnesses -/

/-- Follows the spec sentence, for comparison with the code path: a
SHA-256 hash of the concatenation of the repository url, a colon, the
source file path, a colon and the decimal starting line, truncated to the
first 12 hexadecimal characters of the digest. -/
def specFragmentId (url file : List Char) (lineStart : Nat) : List Char :=
  (hexOfBytes (sha256 (utf8Str (url ++ ":".toList ++ file ++ ":".toList ++ decRepr lineStart)))).take 12

def demoInfo : RepoInfo :=
  ⟨"acme".toList, "widgets".toList, "https://github.com/acme/widgets".toList⟩

def demoBlock (l : Nat) : RawBlock :=
  ⟨"Always use early returns.".toList, "README.md".toList, "readme", 3, l, l, "Rules".toList⟩

def cfgFile : DiscoveredFile :=
  ⟨"/repo/.eslintrc.json".toList, ".eslintrc.json".toList, 4, "linting"⟩

/-- A whole config file shorter than every length threshold. -/
def shortCfg : List Char := "\x7b\x7d".toList

/-- Big-endian value of a byte list (proof-side: used to pack the first
six digest bytes into a number below 256 ^ 6). -/
def beVal : List Nat → Nat
  | [] => 0
  | b :: bs => b * 256 ^ bs.length + beVal bs

/-! ## Theorems -/

/-- Sanity check of the SHA-256 embedding against the FIPS 180-4 test
vector for "abc". -/
theorem sha256_test_vector :
    hexOfBytes (sha256 (utf8Str "abc".toList)) =
      "ba7816bf8f01cfea414140de5dae2223b00361a396177a9cb410ff61f20015ad".toList := by
  decide

/-- Claim C2: extraction and classification are deterministic — two runs
of splitBySections on equal file contents produce identical block lists,
and two runs of classifyFragments on equal blocks, stacks and repository
identities produce identical Knowledge Fragment arrays (all fields,
including ids, tag order and array order). -/
theorem C2_determinism :
    ∀ (c1 c2 : List Char) (f1 f2 : DiscoveredFile) (b1 b2 : List RawBlock)
      (s1 s2 : List StackItem) (i1 i2 : RepoInfo),
    c1 = c2 → f1 = f2 → b1 = b2 → s1 = s2 → i1 = i2 →
    Extract.splitBySections c1 f1 = Extract.splitBySections c2 f2 ∧
    Classify.classifyFragments b1 s1 i1 = Classify.classifyFragments b2 s2 i2 := by
  intro c1 c2 f1 f2 b1 b2 s1 s2 i1 i2 hc hf hb hs hi
  subst hc; subst hf; subst hb; subst hs; subst hi
  exact ⟨rfl, rfl⟩

theorem C2_determinism_witness :
    Extract.splitBySections [] cfgFile = Extract.splitBySections [] cfgFile ∧
    Classify.classifyFragments [demoBlock 1] [] demoInfo =
      Classify.classifyFragments [demoBlock 1] [] demoInfo :=
  C2_determinism [] [] cfgFile cfgFile [demoBlock 1] [demoBlock 1] [] [] demoInfo demoInfo
    rfl rfl rfl rfl rfl

theorem extract_append (l1 l2 : List (DiscoveredFile × Except (List Char) (List Char))) :
    Extract.extractKnowledge (l1 ++ l2) =
      ((Extract.extractKnowledge l1).1 ++ (Extract.extractKnowledge l2).1,
       (Extract.extractKnowledge l1).2 ++ (Extract.extractKnowledge l2).2) := by
  induction l1 with
  | nil => simp [Extract.extractKnowledge]
  | cons hd tl ih =>
    obtain ⟨f, r⟩ := hd
    cases r <;> simp [Extract.extractKnowledge, ih]

/-- Claim C8: a file whose read fails is skipped with exactly one logged
warning; it contributes no blocks, the run never aborts (extractKnowledge
is total), and the blocks of every other file are produced unchanged. -/
theorem C8_read_failure_skipped :
    ∀ (pre post : List (DiscoveredFile × Except (List Char) (List Char)))
      (f : DiscoveredFile) (e : List Char),
    (Extract.extractKnowledge (pre ++ (f, Except.error e) :: post)).1 =
      (Extract.extractKnowledge pre).1 ++ (Extract.extractKnowledge post).1 ∧
    (Extract.extractKnowledge (pre ++ (f, Except.error e) :: post)).2 =
      (Extract.extractKnowledge pre).2 ++ Extract.warnMsg f e :: (Extract.extractKnowledge post).2 := by
  intro pre post f e
  rw [extract_append]
  constructor <;> simp [Extract.extractKnowledge]

theorem insertByPriority_perm (x : DiscoveredFile) (l : List DiscoveredFile) :
    (Discover.insertByPriority x l).Perm (x :: l) := by
  induction l with
  | nil => simp [Discover.insertByPriority]
  | cons y ys ih =>
    simp only [Discover.insertByPriority]
    split
    · exact ((ih.cons y).trans (List.Perm.swap x y ys)).symm.symm
    · exact List.Perm.refl _

theorem mem_insertByPriority {z x : DiscoveredFile} {l : List DiscoveredFile}
    (h : z ∈ Discover.insertByPriority x l) : z = x ∨ z ∈ l := by
  have := (insertByPriority_perm x l).mem_iff.mp h
  simpa using this

theorem insertByPriority_sorted (x : DiscoveredFile) (l : List DiscoveredFile)
    (h : l.Pairwise (fun a b => a.priority ≤ b.priority)) :
    (Discover.insertByPriority x l).Pairwise (fun a b => a.priority ≤ b.priority) := by
  induction l with
  | nil => simp [Discover.insertByPriority]
  | cons y ys ih =>
    rw [List.pairwise_cons] at h
    obtain ⟨hy, hys⟩ := h
    simp only [Discover.insertByPriority]
    split
    · rename_i hle
      rw [List.pairwise_cons]
      refine ⟨?_, ih hys⟩
      intro z hz
      rcases mem_insertByPriority hz with rfl | hz
      · exact hle
      · exact hy z hz
    · rename_i hgt
      rw [List.pairwise_cons]
      refine ⟨?_, List.pairwise_cons.mpr ⟨hy, hys⟩⟩
      intro z hz
      rcases List.mem_cons.mp hz with rfl | hz
      · omega
      · exact le_trans (by omega) (hy z hz)

theorem insertByPriority_filter (x : DiscoveredFile) (l : List DiscoveredFile) (p : Nat)
    (h : l.Pairwise (fun a b => a.priority ≤ b.priority)) :
    (Discover.insertByPriority x l).filter (fun y => y.priority == p) =
      l.filter (fun y => y.priority == p) ++ (if x.priority == p then [x] else []) := by
  induction l with
  | nil => simp [Discover.insertByPriority, List.filter_cons]
  | cons y ys ih =>
    rw [List.pairwise_cons] at h
    obtain ⟨hy, hys⟩ := h
    simp only [Discover.insertByPriority]
    split
    · rename_i hle
      rw [List.filter_cons, List.filter_cons]
      split <;> simp [ih hys]
    · rename_i hgt
      have hnil : ys.filter (fun y => y.priority == p) = [] ∨ ¬ (x.priority == p) = true := by
        by_cases hxp : (x.priority == p) = true
        · left
          rw [List.filter_eq_nil_iff]
          intro a ha
          have := hy a ha
          simp only [beq_iff_eq] at hxp ⊢
          omega
        · right; exact hxp
      by_cases hxp : (x.priority == p) = true
      · have hyp : ¬ (y.priority == p) = true := by
          simp only [beq_iff_eq] at hxp ⊢
          omega
        rcases hnil with hnil | hbad
        · simp [List.filter_cons, hxp, hyp, hnil]
        · exact absurd hxp hbad
      · simp [List.filter_cons, hxp]

theorem sortFold_props (l acc : List DiscoveredFile)
    (h : acc.Pairwise (fun a b => a.priority ≤ b.priority)) :
    (l.foldl (fun acc x => Discover.insertByPriority x acc) acc).Pairwise
      (fun a b => a.priority ≤ b.priority) ∧
    (∀ p, (l.foldl (fun acc x => Discover.insertByPriority x acc) acc).filter
        (fun y => y.priority == p) =
      acc.filter (fun y => y.priority == p) ++ l.filter (fun y => y.priority == p)) ∧
    (l.foldl (fun acc x => Discover.insertByPriority x acc) acc).Perm (acc ++ l) := by
  induction l generalizing acc with
  | nil => exact ⟨h, by simp, by simp⟩
  | cons x xs ih =>
    obtain ⟨hs, hf, hp⟩ := ih (Discover.insertByPriority x acc) (insertByPriority_sorted x acc h)
    refine ⟨hs, ?_, ?_⟩
    · intro p
      rw [List.foldl_cons, hf p, insertByPriority_filter x acc p h, List.filter_cons]
      split <;> simp
    · rw [List.foldl_cons]
      refine hp.trans ?_
      refine (((insertByPriority_perm x acc).append_right xs).trans ?_)
      exact (List.perm_middle).symm

/-- Claim C7: discoverFiles returns the combined known-file hits and
docs-directory hits sorted in ascending priority order; the sort is a
permutation of the combined list and is stable — for every tier `p` the
subsequence of tier-`p` entries equals, in order, the tier-`p`
subsequence of the combined discovery-order list. -/
theorem C7_discover_sorted_stable :
    ∀ (repoRoot : List Char) (fs : Discover.RepoFS),
    (Discover.discoverFiles repoRoot fs).Pairwise (fun a b => a.priority ≤ b.priority) ∧
    (∀ p, (Discover.discoverFiles repoRoot fs).filter (fun y => y.priority == p) =
      (Discover.knownHits repoRoot fs ++ Discover.docsHits repoRoot fs).filter
        (fun y => y.priority == p)) ∧
    (Discover.discoverFiles repoRoot fs).Perm
      (Discover.knownHits repoRoot fs ++ Discover.docsHits repoRoot fs) := by
  intro repoRoot fs
  obtain ⟨hs, hf, hp⟩ :=
    sortFold_props (Discover.knownHits repoRoot fs ++ Discover.docsHits repoRoot fs) []
      (by simp)
  simp only [Discover.discoverFiles, Discover.sortByPriority]
  refine ⟨hs, ?_, by simpa only [List.nil_append] using hp⟩
  intro p
  simpa only [List.filter_nil, List.nil_append] using hf p

theorem splitGo_mem (file : DiscoveredFile) :
    ∀ (lines : List (List Char)) (i : Nat) (sec : List Char) (cur : List (List Char))
      (start : Nat) (acc : List RawBlock) (b : RawBlock),
    b ∈ Extract.splitGo file lines i sec cur start acc →
    b ∈ acc ∨ (Extract.hasKnowledgeSignal b.content b.sectionTitle = true ∧ b.content ≠ []) := by
  intro lines
  induction lines with
  | nil =>
    intro i sec cur start acc b hb
    simp only [Extract.splitGo] at hb
    split at hb
    · rename_i hcond
      rcases List.mem_append.mp hb with h | h
      · exact Or.inl h
      · right
        simp only [List.mem_singleton] at h
        subst h
        rw [Bool.and_eq_true, Bool.not_eq_true', List.isEmpty_eq_false_iff_exists_mem] at hcond
        refine ⟨hcond.2, ?_⟩
        obtain ⟨x, hx⟩ := hcond.1
        exact List.ne_nil_of_mem hx
    · exact Or.inl hb
  | cons line rest ih =>
    intro i sec cur start acc b hb
    simp only [Extract.splitGo] at hb
    split at hb
    · split at hb
      · rcases ih _ _ _ _ _ _ hb with h | h
        · split at h
          · rename_i hcond
            rcases List.mem_append.mp h with h2 | h2
            · exact Or.inl h2
            · right
              simp only [List.mem_singleton] at h2
              subst h2
              rw [Bool.and_eq_true, Bool.not_eq_true', List.isEmpty_eq_false_iff_exists_mem]
                at hcond
              refine ⟨hcond.2, ?_⟩
              obtain ⟨x, hx⟩ := hcond.1
              exact List.ne_nil_of_mem hx
          · exact Or.inl h
        · exact Or.inr h
      · exact ih _ _ _ _ _ _ hb
    · exact ih _ _ _ _ _ _ hb

theorem trimChars_nil : trimChars [] = [] := rfl

theorem splitGo_ord (file : DiscoveredFile) :
    ∀ (lines : List (List Char)) (i : Nat) (sec : List Char) (cur : List (List Char))
      (start : Nat) (acc : List RawBlock),
    (cur = [] → start = i + 1) →
    (cur ≠ [] → start ≤ i) →
    (∀ b ∈ acc, b.lineStart ≤ b.lineEnd ∧ b.lineEnd < start) →
    acc.Pairwise (fun x y => x.lineEnd < y.lineStart) →
    (∀ b ∈ Extract.splitGo file lines i sec cur start acc, b.lineStart ≤ b.lineEnd) ∧
    (Extract.splitGo file lines i sec cur start acc).Pairwise
      (fun x y => x.lineEnd < y.lineStart) := by
  intro lines
  induction lines with
  | nil =>
    intro i sec cur start acc hnil hne hacc hpw
    simp only [Extract.splitGo]
    split
    · rename_i hcond
      have hcur : cur ≠ [] := by
        intro hc
        subst hc
        simp [joinLines, trimChars_nil] at hcond
      have hsi : start ≤ i := hne hcur
      constructor
      · intro b hb
        rcases List.mem_append.mp hb with h | h
        · exact (hacc b h).1
        · simp only [List.mem_singleton] at h
          subst h
          exact hsi
      · rw [List.pairwise_append]
        refine ⟨hpw, List.pairwise_singleton _ _, ?_⟩
        intro a ha b' hb'
        simp only [List.mem_singleton] at hb'
        subst hb'
        exact (hacc a ha).2
    · exact ⟨fun b hb => (hacc b hb).1, hpw⟩
  | cons line rest ih =>
    intro i sec cur start acc hnil hne hacc hpw
    simp only [Extract.splitGo]
    split
    · split
      · rename_i hcur'
        have hcur : cur ≠ [] := by
          intro hc
          subst hc
          simp at hcur'
        have hsi : start ≤ i := hne hcur
        apply ih
        · intro h; simp at h
        · intro _; omega
        · intro b hb
          split at hb
          · rename_i hcond
            rcases List.mem_append.mp hb with h | h
            · have := hacc b h; omega
            · simp only [List.mem_singleton] at h
              subst h
              exact ⟨hsi, Nat.lt_succ_self i⟩
          · have := hacc b hb; omega
        · split
          · rename_i hcond
            rw [List.pairwise_append]
            refine ⟨hpw, List.pairwise_singleton _ _, ?_⟩
            intro a ha b' hb'
            simp only [List.mem_singleton] at hb'
            subst hb'
            exact (hacc a ha).2
          · exact hpw
      · rename_i hcur'
        have hcur : cur = [] := by
          rcases cur with _ | ⟨c, cs⟩
          · rfl
          · simp at hcur'
        have hstart : start = i + 1 := hnil hcur
        apply ih
        · intro h; simp at h
        · intro _; omega
        · intro b hb; have := hacc b hb; omega
        · exact hpw
    · apply ih
      · intro h; simp at h
      · intro _
        rcases Decidable.em (cur = []) with hc | hc
        · have := hnil hc; omega
        · have := hne hc; omega
      · intro b hb; have := hacc b hb; omega
      · exact hpw

/-- Claim C6: blocks produced by section splitting appear in file order
and never overlap — every block has lineStart at most lineEnd, each
block ends strictly before the next begins, and lineStart values are
strictly increasing across the list. -/
theorem C6_blocks_ordered :
    ∀ (content : List Char) (file : DiscoveredFile),
    (∀ b ∈ Extract.splitBySections content file, b.lineStart ≤ b.lineEnd) ∧
    (Extract.splitBySections content file).Pairwise (fun x y => x.lineEnd < y.lineStart) ∧
    (Extract.splitBySections content file).Pairwise (fun x y => x.lineStart < y.lineStart) := by
  intro content file
  obtain ⟨hwf, hpw⟩ :=
    splitGo_ord file (splitLines content) 0 ("preamble".toList) [] 1 []
      (fun _ => rfl) (fun h => absurd rfl h) (fun b hb => absurd hb (List.not_mem_nil b))
      (List.Pairwise.nil)
  refine ⟨hwf, hpw, ?_⟩
  refine List.Pairwise.imp_of_mem ?_ hpw
  intro a b ha _ hab
  have := hwf a ha
  omega

theorem hasSignal_short {content sec : List Char} (h : content.length < 50) :
    Extract.hasKnowledgeSignal content sec = false := by
  simp only [Extract.hasKnowledgeSignal]
  rw [if_pos h]

theorem hasSignal_len {content sec : List Char}
    (h : Extract.hasKnowledgeSignal content sec = true) : 50 ≤ content.length := by
  by_contra hlt
  rw [hasSignal_short (by omega)] at h
  exact Bool.false_ne_true h

theorem hasSignal_preamble_short {content : List Char}
    (h : Extract.nonBlankCount content < 3) :
    Extract.hasKnowledgeSignal content ("preamble".toList) = false := by
  simp only [Extract.hasKnowledgeSignal]
  split
  · rfl
  · rw [if_pos]
    simp [h]

/-- Claim C5: a preamble section with fewer than 3 non-blank lines is
rejected by the Signal Filter whatever its content, and consequently no
RawBlock labelled preamble with fewer than 3 non-blank lines is ever
produced by section splitting. -/
theorem C5_preamble_rule :
    (∀ content : List Char, Extract.nonBlankCount content < 3 →
      Extract.hasKnowledgeSignal content ("preamble".toList) = false) ∧
    (∀ (content : List Char) (file : DiscoveredFile) (b : RawBlock),
      b ∈ Extract.splitBySections content file → b.sectionTitle = "preamble".toList →
      3 ≤ Extract.nonBlankCount b.content) := by
  constructor
  · intro content h
    exact hasSignal_preamble_short h
  · intro content file b hb hsec
    rcases splitGo_mem file (splitLines content) 0 ("preamble".toList) [] 1 [] b hb with h | h
    · exact absurd h (List.not_mem_nil b)
    · by_contra hlt
      rw [hsec] at h
      rw [hasSignal_preamble_short (by omega)] at h
      exact Bool.false_ne_true h.1

theorem C5_preamble_rule_witness :
    Extract.hasKnowledgeSignal ("You must do this\nSecond line".toList) ("preamble".toList)
      = false :=
  C5_preamble_rule.1 ("You must do this\nSecond line".toList) (by decide)

/-- Claim C4 (amended): a prose or markdown section block whose content
is shorter than 50 characters never passes the Signal Filter, whatever
positive signals it contains, and every block produced by section
splitting has content of at least 50 characters.  (Structured config
files bypass the Signal Filter entirely — see the counterexample — so no
30-character minimum holds for them.) -/
theorem C4_filter_minimum :
    (∀ content sec : List Char, content.length < 50 →
      Extract.hasKnowledgeSignal content sec = false) ∧
    (∀ (content : List Char) (file : DiscoveredFile) (b : RawBlock),
      b ∈ Extract.splitBySections content file → 50 ≤ b.content.length) := by
  constructor
  · intro content sec h
    exact hasSignal_short h
  · intro content file b hb
    rcases splitGo_mem file (splitLines content) 0 ("preamble".toList) [] 1 [] b hb with h | h
    · exact absurd h (List.not_mem_nil b)
    · exact hasSignal_len h.1

theorem C4_filter_minimum_witness :
    Extract.hasKnowledgeSignal ("Never do this. Always do that.".toList) ("Rules".toList)
      = false :=
  C4_filter_minimum.1 ("Never do this. Always do that.".toList) ("Rules".toList) (by decide)

/-- Claim C4 (counterexample): a structured config file whose whole
content is 2 characters long is emitted as a RawBlock by extractKnowledge
— no 30-character (nor any) length threshold is applied to config files,
and the classifier maps the block to a Knowledge Fragment. -/
theorem C4_counterexample :
    (Extract.extractKnowledge [(cfgFile, Except.ok shortCfg)]).1 =
      [⟨shortCfg, cfgFile.relativePath, "linting", 4, 1, 1, cfgFile.relativePath⟩] ∧
    shortCfg.length < 30 ∧
    (Classify.classifyFragments (Extract.extractKnowledge [(cfgFile, Except.ok shortCfg)]).1
      [] demoInfo).length = 1 := by
  refine ⟨by decide, by decide, ?_⟩
  simp only [Classify.classifyFragments, List.length_map]
  decide

theorem scoreCat_zero {lower : List Char} {kws : List String}
    (h : ∀ kw ∈ kws, countOcc kw.toList lower = 0) :
    Classify.scoreCat lower kws = 0 := by
  have key : ∀ (l : List String) (a : Nat), (∀ kw ∈ l, countOcc kw.toList lower = 0) →
      l.foldl (fun sum kw => sum + countOcc kw.toList lower) a = a := by
    intro l
    induction l with
    | nil => intro a _; rfl
    | cons k ks ih =>
      intro a hz
      rw [List.foldl_cons, hz k (by simp)]
      exact ih a (fun kw hkw => hz kw (by simp [hkw]))
  exact key kws 0 h

theorem foldBest_zero {lower : List Char} (tbl : List (String × List String))
    (best : String × Nat)
    (h : ∀ e ∈ tbl, Classify.scoreCat lower e.2 = 0) :
    tbl.foldl
      (fun best e =>
        if best.2 < Classify.scoreCat lower e.2 then (e.1, Classify.scoreCat lower e.2) else best)
      best = best := by
  induction tbl generalizing best with
  | nil => rfl
  | cons e es ih =>
    rw [List.foldl_cons, h e (by simp), if_neg (by omega)]
    exact ih best (fun e' he' => h e' (by simp [he']))

/-- Claim C9: classifyFragments is total and shape-preserving — exactly
one fragment per well-formed RawBlock, in input order (witnessed by the
source file and line of each fragment), and each derivation falls back to
its documented default when no signal matches: category `conventions`,
type `convention`, example absent. -/
theorem C9_classifier_total :
    ∀ (blocks : List RawBlock) (stack : List StackItem) (info : RepoInfo),
    (Classify.classifyFragments blocks stack info).length = blocks.length ∧
    (Classify.classifyFragments blocks stack info).map
        (fun fr => (fr.source.file, fr.source.line)) =
      blocks.map (fun b => (b.file, b.lineStart)) ∧
    (∀ content : List Char,
      (∀ e ∈ Classify.CATEGORY_KEYWORDS, ∀ kw ∈ e.2, countOcc kw.toList (lowerStr content) = 0) →
      Classify.detectCategory content = "conventions") ∧
    (∀ content : List Char,
      (∀ e ∈ Classify.TYPE_SIGNALS, ∀ s ∈ e.2, containsSub s.toList (lowerStr content) = false) →
      Classify.detectType content = "convention") ∧
    (∀ content : List Char, containsSub Classify.codeFence content = false →
      Classify.extractCodeExample content = none) := by
  intro blocks stack info
  refine ⟨?_, ?_, ?_, ?_, ?_⟩
  · simp [Classify.classifyFragments]
  · simp only [Classify.classifyFragments, List.map_map]
    rfl
  · intro content h
    simp only [Classify.detectCategory]
    rw [foldBest_zero _ _ (fun e he => scoreCat_zero (h e he))]
  · intro content h
    simp only [Classify.detectType]
    have : Classify.TYPE_SIGNALS.find? (fun e => Classify.anySig e.2 (lowerStr content))
        = none := by
      rw [List.find?_eq_none]
      intro e he hc
      simp only [Classify.anySig, List.any_eq_true] at hc
      obtain ⟨s, hs, hcc⟩ := hc
      rw [h e he s hs] at hcc
      exact Bool.false_ne_true hcc
    rw [this]
  · intro content h
    have key : ∀ (l : List Char), containsSub Classify.codeFence l = false →
        Classify.exGo l = none := by
      intro l
      induction l with
      | nil => intro _; rfl
      | cons c cs ih =>
        intro hc
        simp only [containsSub, Bool.or_eq_false_iff] at hc
        simp only [Classify.exGo, hc.1, Bool.false_eq_true, if_false]
        exact ih hc.2
    exact key content h

theorem C9_classifier_total_witness :
    Classify.detectCategory ("qq zz".toList) = "conventions" ∧
    Classify.detectType ("qq zz".toList) = "convention" ∧
    Classify.extractCodeExample ("qq zz".toList) = none :=
  ⟨(C9_classifier_total [] [] demoInfo).2.2.1 ("qq zz".toList) (by decide),
   (C9_classifier_total [] [] demoInfo).2.2.2.1 ("qq zz".toList) (by decide),
   (C9_classifier_total [] [] demoInfo).2.2.2.2 ("qq zz".toList) (by decide)⟩

/-- Claim C10: type detection (variant A) is first-match over the fixed
order anti-pattern, rule, pattern, convention: the first type with any
signal substring of the lowercased content wins, `convention` results
exactly when none of the three earlier types has a matching signal, and
in particular content containing both "never" and "must" is typed
anti-pattern regardless of occurrence counts. -/
theorem C10_type_first_match :
    ∀ content : List Char,
    (Classify.anySig Classify.antiPatternSignals (lowerStr content) = true →
      Classify.detectType content = "anti-pattern") ∧
    (Classify.anySig Classify.antiPatternSignals (lowerStr content) = false →
      Classify.anySig Classify.ruleSignals (lowerStr content) = true →
      Classify.detectType content = "rule") ∧
    (Classify.anySig Classify.antiPatternSignals (lowerStr content) = false →
      Classify.anySig Classify.ruleSignals (lowerStr content) = false →
      Classify.anySig Classify.patternSignals (lowerStr content) = true →
      Classify.detectType content = "pattern") ∧
    (Classify.detectType content = "convention" ↔
      (Classify.anySig Classify.antiPatternSignals (lowerStr content) = false ∧
       Classify.anySig Classify.ruleSignals (lowerStr content) = false ∧
       Classify.anySig Classify.patternSignals (lowerStr content) = false)) ∧
    (containsSub ("never".toList) (lowerStr content) = true →
      containsSub ("must".toList) (lowerStr content) = true →
      Classify.detectType content = "anti-pattern") := by
  intro content
  have heq : Classify.detectType content =
      (if Classify.anySig Classify.antiPatternSignals (lowerStr content) then "anti-pattern"
       else if Classify.anySig Classify.ruleSignals (lowerStr content) then "rule"
       else if Classify.anySig Classify.patternSignals (lowerStr content) then "pattern"
       else "convention") := by
    cases ha : Classify.anySig Classify.antiPatternSignals (lowerStr content) <;>
      cases hr : Classify.anySig Classify.ruleSignals (lowerStr content) <;>
      cases hp : Classify.anySig Classify.patternSignals (lowerStr content) <;>
      cases hc : Classify.anySig Classify.conventionSignals (lowerStr content) <;>
      simp [Classify.detectType, Classify.TYPE_SIGNALS, List.find?, ha, hr, hp, hc]
  refine ⟨?_, ?_, ?_, ?_, ?_⟩
  · intro ha
    rw [heq, if_pos ha]
  · intro ha hr
    rw [heq, if_neg (by simp [ha]), if_pos hr]
  · intro ha hr hp
    rw [heq, if_neg (by simp [ha]), if_neg (by simp [hr]), if_pos hp]
  · constructor
    · intro h
      rw [heq] at h
      cases ha : Classify.anySig Classify.antiPatternSignals (lowerStr content) with
      | true => rw [if_pos ha] at h; exact absurd h (by decide)
      | false =>
        cases hr : Classify.anySig Classify.ruleSignals (lowerStr content) with
        | true =>
          rw [if_neg (by simp [ha]), if_pos hr] at h
          exact absurd h (by decide)
        | false =>
          cases hp : Classify.anySig Classify.patternSignals (lowerStr content) with
          | true =>
            rw [if_neg (by simp [ha]), if_neg (by simp [hr]), if_pos hp] at h
            exact absurd h (by decide)
          | false => exact ⟨rfl, rfl, rfl⟩

    · rintro ⟨ha, hr, hp⟩
      rw [heq, if_neg (by simp [ha]), if_neg (by simp [hr]), if_neg (by simp [hp])]
  · intro hnever hmust
    rw [heq, if_pos ?_]
    simp only [Classify.anySig, Classify.antiPatternSignals, List.any_eq_true]
    exact ⟨"never", by simp, hnever⟩

theorem C10_type_first_match_witness :
    Classify.detectType ("You must never use var here".toList) = "anti-pattern" :=
  (C10_type_first_match ("You must never use var here".toList)).2.2.2.2 (by decide) (by decide)

/-- Claim C3 (counterexample): the title "Test Workflow" matches the
title-override pattern of category testing, yet the classifier assigns
git-workflow — the first matching category in override-table order, not
an arbitrary matching one — so a title matching some category B's
pattern does not always yield B. -/
theorem C3_counterexample :
    ClassifyB.titleMatches (ClassifyB.overridesFor "testing") ("Test Workflow".toList) = true ∧
    ClassifyB.detectCategory ("x".toList) ("Test Workflow".toList) ≠ "testing" := by
  exact ⟨by decide, by decide⟩

/-- Claim C3 (amended): when the section title matches any override
pattern, the classifier immediately assigns the first category of the
override table whose patterns match the title, and the result is then
independent of the block's content — the keyword scores never matter. -/
theorem C3_title_override :
    ∀ (content title : List Char) (cat : String),
    ClassifyB.firstOverride title = some cat →
    ClassifyB.detectCategory content title = cat ∧
    (∀ content2 : List Char,
      ClassifyB.detectCategory content2 title = ClassifyB.detectCategory content title) := by
  intro content title cat h
  constructor
  · simp [ClassifyB.detectCategory, h]
  · intro content2
    simp [ClassifyB.detectCategory, h]

theorem C3_title_override_witness :
    ClassifyB.detectCategory ("error error error retry catch throw".toList)
      ("Vigtige Regler".toList) = "conventions" :=
  (C3_title_override ("error error error retry catch throw".toList)
    ("Vigtige Regler".toList) "conventions" (by decide)).1

theorem hexOfBytes_length : ∀ bs : List Nat, (hexOfBytes bs).length = 2 * bs.length := by
  intro bs
  induction bs with
  | nil => rfl
  | cons b bs ih => simp [hexOfBytes, hexByte, ih]; omega

theorem hexOfBytes_take : ∀ (k : Nat) (bs : List Nat),
    (hexOfBytes bs).take (2 * k) = hexOfBytes (bs.take k) := by
  intro k
  induction k with
  | zero => intro bs; simp [hexOfBytes]
  | succ k ih =>
    intro bs
    cases bs with
    | nil => simp [hexOfBytes]
    | cons b bs =>
      have h2 : 2 * (k + 1) = (2 * k) + 1 + 1 := by omega
      simp only [hexOfBytes, hexByte, List.take_succ_cons, h2, List.cons_append,
        List.nil_append, List.take_cons]
      rw [ih bs]

theorem mem_wordBytes_lt {b w : Nat} (h : b ∈ wordBytes w) : b < 256 := by
  simp only [wordBytes, List.mem_cons, List.not_mem_nil, or_false] at h
  rcases h with rfl | rfl | rfl | rfl <;> omega

theorem sha256_length (m : List Nat) : (sha256 m).length = 32 := by
  simp [sha256, wordBytes]

theorem sha256_mem_lt {m : List Nat} {b : Nat} (h : b ∈ sha256 m) : b < 256 := by
  simp only [sha256, List.mem_append] at h
  rcases h with ((((((h | h) | h) | h) | h) | h) | h) | h <;> exact mem_wordBytes_lt h

theorem beVal_lt {bs : List Nat} (h : ∀ b ∈ bs, b < 256) : beVal bs < 256 ^ bs.length := by
  induction bs with
  | nil => simp [beVal]
  | cons b bs ih =>
    have hb : b < 256 := h b (by simp)
    have hbs : beVal bs < 256 ^ bs.length := ih (fun x hx => h x (by simp [hx]))
    have : b * 256 ^ bs.length + beVal bs < (b + 1) * 256 ^ bs.length := by
      rw [Nat.succ_mul]
      omega
    calc beVal (b :: bs) = b * 256 ^ bs.length + beVal bs := rfl
      _ < (b + 1) * 256 ^ bs.length := this
      _ ≤ 256 * 256 ^ bs.length := Nat.mul_le_mul_right _ (by omega)
      _ = 256 ^ (bs.length + 1) := (pow_succ 256 bs.length).symm ▸ (mul_comm _ _)
      _ = 256 ^ (b :: bs).length := by simp

theorem beVal_inj : ∀ (xs ys : List Nat), xs.length = ys.length →
    (∀ b ∈ xs, b < 256) → (∀ b ∈ ys, b < 256) → beVal xs = beVal ys → xs = ys := by
  intro xs
  induction xs with
  | nil =>
    intro ys hlen _ _ _
    cases ys with
    | nil => rfl
    | cons y ys => simp at hlen
  | cons x xs ih =>
    intro ys hlen hx hy hv
    cases ys with
    | nil => simp at hlen
    | cons y ys =>
      simp only [List.length_cons, Nat.succ_inj] at hlen
      have hxb : x < 256 := hx x (by simp)
      have hyb : y < 256 := hy y (by simp)
      have hxs : beVal xs < 256 ^ xs.length := beVal_lt (fun b hb => hx b (by simp [hb]))
      have hys : beVal ys < 256 ^ ys.length := beVal_lt (fun b hb => hy b (by simp [hb]))
      simp only [beVal, hlen] at hv
      have hpow : 0 < 256 ^ ys.length := Nat.pos_pow_of_pos _ (by omega)
      have hxy : x = y := by
        have h1 : (x * 256 ^ ys.length + beVal xs) / 256 ^ ys.length = x := by
          rw [Nat.mul_comm x, Nat.mul_add_div hpow, Nat.div_eq_of_lt (hlen ▸ hxs)]
          omega
        have h2 : (y * 256 ^ ys.length + beVal ys) / 256 ^ ys.length = y := by
          rw [Nat.mul_comm y, Nat.mul_add_div hpow, Nat.div_eq_of_lt hys]
          omega
        rw [← h1, ← h2, hv]
      subst hxy
      have hrest : beVal xs = beVal ys := by
        exact Nat.add_left_cancel hv
      rw [ih ys hlen (fun b hb => hx b (by simp [hb])) (fun b hb => hy b (by simp [hb])) hrest]

theorem digitCh_toNat {d : Nat} (h : d < 10) : (digitCh d).toNat = 48 + d := by
  interval_cases d <;> decide

theorem decReprFuel_val : ∀ (fuel n : Nat), n < fuel → decValC (decReprFuel fuel n) = n := by
  intro fuel
  induction fuel with
  | zero => intro n h; omega
  | succ fuel ih =>
    intro n h
    simp only [decReprFuel]
    split
    · rename_i h10
      simp only [decValC, List.foldl_cons, List.foldl_nil]
      rw [digitCh_toNat h10]
      omega
    · rename_i h10
      simp only [decValC, List.foldl_append, List.foldl_cons, List.foldl_nil]
      have hv := ih (n / 10) (by omega)
      simp only [decValC] at hv
      rw [hv, digitCh_toNat (by omega : n % 10 < 10)]
      omega

theorem decRepr_inj {a b : Nat} (h : decRepr a = decRepr b) : a = b := by
  have ha := decReprFuel_val (a + 1) a (by omega)
  have hb := decReprFuel_val (b + 1) b (by omega)
  simp only [decRepr] at h
  rw [← ha, ← hb, h]

theorem idInput_inj {url file : List Char} {l1 l2 : Nat}
    (h : Classify.idInput url file l1 = Classify.idInput url file l2) : l1 = l2 := by
  simp only [Classify.idInput] at h
  have h2 := List.append_cancel_left h
  simp only [List.cons.injEq, true_and] at h2
  have h3 := List.append_cancel_left h2
  simp only [List.cons.injEq, true_and] at h3
  exact decRepr_inj h3

theorem hexDigit_isLowerHex {m : Nat} (h : m < 16) : isLowerHex (hexDigit m) = true := by
  interval_cases m <;> decide

theorem mem_hexOfBytes {c : Char} : ∀ {bs : List Nat}, c ∈ hexOfBytes bs →
    ∃ m, m < 16 ∧ c = hexDigit m := by
  intro bs
  induction bs with
  | nil => intro h; exact absurd h (List.not_mem_nil c)
  | cons b bs ih =>
    intro h
    simp only [hexOfBytes, hexByte, List.cons_append, List.nil_append, List.mem_cons] at h
    rcases h with rfl | rfl | h
    · exact ⟨(b / 16) % 16, Nat.mod_lt _ (by omega), rfl⟩
    · exact ⟨b % 16, Nat.mod_lt _ (by omega), rfl⟩
    · exact ih h

theorem colon_toList : ":".toList = [':'] := rfl

theorem idInput_assoc (u f : List Char) (n : Nat) :
    u ++ ":".toList ++ f ++ ":".toList ++ decRepr n = u ++ ':' :: (f ++ ':' :: decRepr n) := by
  rw [colon_toList]
  simp [List.append_assoc]

theorem fragmentId_spec (info : RepoInfo) (file : List Char) (l : Nat) :
    Classify.fragmentId info file l = specFragmentId info.url file l := by
  simp only [Classify.fragmentId, specFragmentId, Classify.idInput]
  rw [idInput_assoc]

/-- Claim C1 (amended): every classified fragment's id is exactly the
first 12 lowercase hexadecimal characters of the SHA-256 digest of
"repository url : source file : lineStart" (the spec-side formula
`specFragmentId`), depending on nothing but those three values — hence
byte-identical re-runs reproduce every id; and distinct lineStart values
always produce distinct hash preimages.  (Distinctness of the truncated
12-character ids themselves cannot hold universally — see the
counterexample.) -/
theorem C1_id_formula :
    ∀ (blocks : List RawBlock) (stack : List StackItem) (info : RepoInfo),
    (Classify.classifyFragments blocks stack info).map Fragment.id =
      blocks.map (fun b => specFragmentId info.url b.file b.lineStart) ∧
    (∀ fr ∈ Classify.classifyFragments blocks stack info,
      fr.id.length = 12 ∧ ∀ c ∈ fr.id, isLowerHex c = true) ∧
    (∀ (file : List Char) (l1 l2 : Nat), l1 ≠ l2 →
      Classify.idInput info.url file l1 ≠ Classify.idInput info.url file l2) := by
  intro blocks stack info
  refine ⟨?_, ?_, ?_⟩
  · simp only [Classify.classifyFragments, List.map_map]
    refine List.map_congr_left ?_
    intro b _
    exact fragmentId_spec info b.file b.lineStart
  · intro fr hfr
    obtain ⟨b, hb, rfl⟩ := List.mem_map.mp hfr
    constructor
    · simp only [Classify.mkFragment, Classify.fragmentId]
      rw [List.length_take, hexOfBytes_length, sha256_length]
      omega
    · intro c hc
      simp only [Classify.mkFragment, Classify.fragmentId] at hc
      have hmem := List.take_subset _ _ hc
      obtain ⟨m, hm, rfl⟩ := mem_hexOfBytes hmem
      exact hexDigit_isLowerHex hm
  · intro file l1 l2 hne heq
    exact hne (idInput_inj heq)

theorem C1_id_formula_witness :
    Classify.idInput demoInfo.url ("README.md".toList) 1 ≠
      Classify.idInput demoInfo.url ("README.md".toList) 2 :=
  (C1_id_formula [] [] demoInfo).2.2 ("README.md".toList) 1 2 (by decide)

/-- Claim C1 (counterexample): it is not true that any two blocks of the
same file with different lineStart values receive different 12-character
ids — the id space has only 16 to the 12th elements while lineStart
ranges over all naturals, so two distinct lineStart values must share an
id (pigeonhole over the first six digest bytes). -/
theorem C1_counterexample :
    ¬ (∀ l1 l2 : Nat, l1 ≠ l2 →
        (Classify.classifyFragments [demoBlock l1] [] demoInfo).map Fragment.id ≠
        (Classify.classifyFragments [demoBlock l2] [] demoInfo).map Fragment.id) := by
  intro H
  have hlen : ∀ l : Nat,
      ((sha256 (utf8Str (Classify.idInput demoInfo.url ("README.md".toList) l))).take 6).length
        = 6 := by
    intro l
    rw [List.length_take, sha256_length]
    omega
  have hbound : ∀ l : Nat,
      beVal ((sha256 (utf8Str (Classify.idInput demoInfo.url ("README.md".toList) l))).take 6)
        < 256 ^ 6 := by
    intro l
    have h2 := @beVal_lt
      ((sha256 (utf8Str (Classify.idInput demoInfo.url ("README.md".toList) l))).take 6)
      (fun b hb => sha256_mem_lt (List.take_subset _ _ hb))
    rw [hlen l] at h2
    exact h2
  obtain ⟨l1, l2, hne, hkey⟩ := Finite.exists_ne_map_eq_of_infinite
    (fun l : Nat =>
      (⟨beVal ((sha256 (utf8Str (Classify.idInput demoInfo.url ("README.md".toList) l))).take 6),
        hbound l⟩ : Fin (256 ^ 6)))
  apply H l1 l2 hne
  have hval : beVal ((sha256 (utf8Str
        (Classify.idInput demoInfo.url ("README.md".toList) l1))).take 6) =
      beVal ((sha256 (utf8Str
        (Classify.idInput demoInfo.url ("README.md".toList) l2))).take 6) := by
    simpa using congrArg Fin.val hkey
  have htake := beVal_inj _ _ (by rw [hlen l1, hlen l2])
    (fun b hb => sha256_mem_lt (List.take_subset _ _ hb))
    (fun b hb => sha256_mem_lt (List.take_subset _ _ hb)) hval
  have hmap : ∀ l : Nat,
      (Classify.classifyFragments [demoBlock l] [] demoInfo).map Fragment.id =
        [hexOfBytes ((sha256 (utf8Str
          (Classify.idInput demoInfo.url ("README.md".toList) l))).take 6)] := by
    intro l
    simp only [Classify.classifyFragments, List.map_cons, List.map_nil, Classify.mkFragment,
      Classify.fragmentId, demoBlock]
    rw [show (12 : Nat) = 2 * 6 from rfl, hexOfBytes_take]
  rw [hmap l1, hmap l2, htake]
